import Mathlib

/-!
Shallow embedding of the PDF text-compression repository
(`compress_pdf_advanced.py` and `compress_pdf.py`).

Python strings are modelled as Lean `String`/`List Char`; Python floats are
modelled as exact rationals (`ℚ`), so the literals `1.2` and `1.1` become
`6/5` and `11/10`.  Character classes (`\s`, `\d`, `\w`, `str.lower`,
`str.strip`) are modelled on their ASCII fragment, which is the fragment the
two modules exercise.  Fallible code (the final report in
`AdvancedPDFCompressor.compress`, which divides by `original_tokens`) is
modelled with `Option`.
-/

/-- Python `\s` (ASCII): the whitespace characters recognised by `str.strip`,
`re.split(r'\s+')` and friends. -/
def pyIsSpace (c : Char) : Bool :=
  c == ' ' || c == '\t' || c == '\n' || c == '\r' || c == '\x0b' || c == '\x0c'

/-- Python `\d` (ASCII): decimal digits. -/
def pyIsDigit (c : Char) : Bool := c.isDigit

/-- Python `\w` (ASCII): alphanumerics and underscore. -/
def pyIsWordChar (c : Char) : Bool := c.isAlphanum || c == '_'

/-- Python `str.lower` on a single character (ASCII). -/
def pyToLowerChar (c : Char) : Char := c.toLower

/-- Python `str.lower`. -/
def pyLower (s : String) : String := String.mk (s.data.map pyToLowerChar)

/-- Python `str.strip()` on a character list: drop leading and trailing
whitespace. -/
def trimL (l : List Char) : List Char :=
  ((l.dropWhile pyIsSpace).reverse.dropWhile pyIsSpace).reverse

/-- Python `str.strip()`. -/
def pyStrip (s : String) : String := String.mk (trimL s.data)

/-- Python `' '.join(...)`. -/
def joinSpace : List String → String
  | [] => ""
  | [s] => s
  | s :: rest => s ++ " " ++ joinSpace rest

/-- Python `int(q)` for a real value: truncation toward zero. -/
def pyInt (q : ℚ) : ℤ := if q < 0 then ⌈q⌉ else ⌊q⌋

/-- State machine for `re.sub(r'\s+', ' ', text)`: every maximal whitespace
run is replaced by a single space.  The flag records whether we are inside a
run that has already emitted its space. -/
def collapseWSAux : Bool → List Char → List Char
  | _, [] => []
  | inRun, c :: rest =>
    if pyIsSpace c then
      if inRun then collapseWSAux true rest else ' ' :: collapseWSAux true rest
    else c :: collapseWSAux false rest

/-- Python `re.sub(r'\s+', ' ', text)` on a character list. -/
def collapseWS (l : List Char) : List Char := collapseWSAux false l

/-- Emit a maximal run for `re.sub(r'(.)\1{4,}', r'\1\1', text)`: a run of
five or more copies of a character (other than `'\n'`, which `.` does not
match) collapses to two copies; shorter runs are kept. -/
def emitRun (c : Char) (count : ℕ) : List Char :=
  if c != '\n' && decide (5 ≤ count) then [c, c] else List.replicate count c

/-- Walk the tail of a run of `count` copies of `c`, extending or emitting. -/
def collapseRunsAux (c : Char) (count : ℕ) : List Char → List Char
  | [] => emitRun c count
  | d :: rest =>
    if d == c then collapseRunsAux c (count + 1) rest
    else emitRun c count ++ collapseRunsAux d 1 rest

/-- Python `re.sub(r'(.)\1{4,}', r'\1\1', text)` on a character list. -/
def collapseRuns : List Char → List Char
  | [] => []
  | c :: rest => collapseRunsAux c 1 rest

namespace AdvancedPDFCompressor

/-- Source `AdvancedPDFCompressor.estimate_tokens`: `len(text) // 4`. -/
def estimate_tokens (text : String) : ℕ := text.length / 4

/-- Sentence-terminal punctuation of the splitter `(?<=[.!?])\s+`. -/
def isSentTerm (c : Char) : Bool := c == '.' || c == '!' || c == '?'

/-- Does the (reversed) current fragment end with terminal punctuation? -/
def headIsTerm : List Char → Bool
  | [] => false
  | p :: _ => isSentTerm p

/-- State machine for `re.split(r'(?<=[.!?])\s+', text)`.  `acc` is the
current fragment in reverse; the flag records that we are consuming the
whitespace run of a match (the run is dropped, and a new fragment starts at
the next non-whitespace character). -/
def splitSentencesAux : Bool → List Char → List Char → List (List Char)
  | _, acc, [] => [acc.reverse]
  | skip, acc, c :: rest =>
    if skip && pyIsSpace c then splitSentencesAux true acc rest
    else if pyIsSpace c && headIsTerm acc then
      acc.reverse :: splitSentencesAux true [] rest
    else splitSentencesAux false (c :: acc) rest

/-- Source `AdvancedPDFCompressor.sentence_tokenize`: split on whitespace preceded
by `.`/`!`/`?`, strip each fragment, and drop the empty ones. -/
def sentence_tokenize (text : String) : List String :=
  ((splitSentencesAux false [] text.data).map (fun f => String.mk (trimL f))).filter
    (fun s => !s.data.isEmpty)

/-- State machine for `re.findall(r'\b\w+\b', s)`: the maximal runs of word
characters.  `cur` is the current run in reverse. -/
def wordRunsAux : List Char → List Char → List (List Char)
  | cur, [] => if cur.isEmpty then [] else [cur.reverse]
  | cur, c :: rest =>
    if pyIsWordChar c then wordRunsAux (c :: cur) rest
    else if cur.isEmpty then wordRunsAux [] rest
    else cur.reverse :: wordRunsAux [] rest

/-- Python `re.findall(r'\b\w+\b', s)`. -/
def findWords (s : String) : List String := (wordRunsAux [] s.data).map String.mk

/-- The stop-word set of `calculate_sentence_scores`. -/
def stop_words : List String :=
  ["the", "a", "an", "and", "or", "but", "in", "on", "at",
   "to", "for", "of", "with", "by", "from", "is", "was",
   "are", "were", "be", "been", "being", "have", "has", "had"]

/-- The token stream `words` before filtering: every sentence lowercased and
split into word tokens, concatenated in order. -/
def allWords (sentences : List String) : List String :=
  (sentences.map (fun s => findWords (pyLower s))).flatten

/-- The stream `words` after the filter `w not in stop_words and len(w) > 2`. -/
def survivingWords (sentences : List String) : List String :=
  (allWords sentences).filter (fun w => !stop_words.contains w && decide (2 < w.length))

/-- Python `max(word_freq.values()) if word_freq else 1`.  The fold ranges over the
per-occurrence counts, whose maximum is the maximum of the counter's
values. -/
def max_freq (ws : List String) : ℕ :=
  if ws.isEmpty then 1 else (ws.map (fun w => ws.count w)).foldr max 0

/-- The normalized word-frequency table.  A token absent from the counter
has count `0`, hence value `0`, matching the `if word in word_freq` guard of
the scoring loop (absent words contribute nothing). -/
def word_freq (sentences : List String) : String → ℚ := fun w =>
  let ws := survivingWords sentences
  (ws.count w : ℚ) / (max_freq ws : ℚ)

/-- Python `re.search(r'\d', sentence)`: the sentence contains a decimal digit. -/
def hasDigit (s : String) : Bool := s.data.any pyIsDigit

/-- Source `AdvancedPDFCompressor.calculate_sentence_scores`, as the map from a
sentence index to its score.  `1.2` and `1.1` are the exact rationals `6/5`
and `11/10`.  `i >= len(sentences) - 3` on Python ints agrees with the
truncated subtraction `sentences.length - 3 ≤ i` for every `i ≥ 0`. -/
def calculate_sentence_scores (sentences : List String) : ℕ → ℚ := fun i =>
  let s := sentences.getD i ""
  let base : ℚ := ((findWords (pyLower s)).map (word_freq sentences)).sum
  let boosted := if i < 3 ∨ sentences.length - 3 ≤ i then base * (6/5) else base
  if hasDigit s then boosted * (11/10) else boosted

/-- Stable descending insertion for `sorted(..., reverse=True)`: a new
element goes in front of the first list element whose key is not larger, so
earlier elements win ties. -/
def insertDescStable (key : ℕ → ℚ) (i : ℕ) : List ℕ → List ℕ
  | [] => [i]
  | j :: rest =>
    if key j ≤ key i then i :: j :: rest else j :: insertDescStable key i rest

/-- Python `sorted(l, key=key, reverse=True)`: Python's sort is stable, and with
`reverse=True` elements with equal keys keep their original order. -/
def pySortDesc (key : ℕ → ℚ) : List ℕ → List ℕ
  | [] => []
  | i :: rest => insertDescStable key i (pySortDesc key rest)

/-- Stable ascending insertion for `list.sort()` on distinct naturals. -/
def insertAsc (i : ℕ) : List ℕ → List ℕ
  | [] => [i]
  | j :: rest => if i ≤ j then i :: j :: rest else j :: insertAsc i rest

/-- Python `list.sort()` on a list of naturals. -/
def sortAsc : List ℕ → List ℕ
  | [] => []
  | i :: rest => insertAsc i (sortAsc rest)

/-- Python `max(1, int(len(sentences) * target_ratio))`. -/
def num_sentences_to_keep (n : ℕ) (targetRatio : ℚ) : ℕ :=
  max 1 (pyInt ((n : ℚ) * targetRatio)).toNat

/-- Python `sorted(scores, key=scores.get, reverse=True)`: the score dict's keys are
`0, 1, ..., len(sentences) - 1` in insertion order. -/
def rankedIndices (sentences : List String) : List ℕ :=
  pySortDesc (calculate_sentence_scores sentences) (List.range sentences.length)

/-- The list `top_indices` after the `[:num_sentences]` cut and the ascending
`top_indices.sort()`. -/
def selectedIndices (sentences : List String) (targetRatio : ℚ) : List ℕ :=
  sortAsc ((rankedIndices sentences).take
    (num_sentences_to_keep sentences.length targetRatio))

/-- Source `AdvancedPDFCompressor.extractive_summarize`. -/
def extractive_summarize (text : String) (targetRatio : ℚ) : String :=
  let sentences := sentence_tokenize text
  if sentences.isEmpty then text
  else joinSpace ((selectedIndices sentences targetRatio).map
    (fun i => sentences.getD i ""))

/-- The inline cleaning step of `AdvancedPDFCompressor.compress`:
`re.sub(r'\s+', ' ', text)` then `re.sub(r'(.)\1{4,}', r'\1\1', text)`. -/
def clean (text : String) : String := String.mk (collapseRuns (collapseWS text.data))

/-- Source `AdvancedPDFCompressor.compress`, from the point text has been
extracted.  The result is the compressed text with the `original_tokens` and
`final_tokens` estimates; `none` models the `ZeroDivisionError` raised by the
final report `(final_tokens/original_tokens)*100` when `original_tokens`
is `0`. -/
def compress (max_tokens : ℕ) (compression_ratio : ℚ) (text : String) :
    Option (String × ℕ × ℕ) :=
  let original_tokens := estimate_tokens text
  let cleaned := clean text
  let target_tokens : ℤ :=
    min (max_tokens : ℤ) (pyInt ((original_tokens : ℚ) * compression_ratio))
  let compressed :=
    if original_tokens ≤ max_tokens then cleaned
    else extractive_summarize cleaned ((target_tokens : ℚ) / (original_tokens : ℚ))
  let final_tokens := estimate_tokens compressed
  if original_tokens = 0 then none
  else some (compressed, original_tokens, final_tokens)

end AdvancedPDFCompressor

namespace PDFCompressor

/-- Source `PDFCompressor.estimate_tokens`: `len(text) // 4`. -/
def estimate_tokens (text : String) : ℕ := text.length / 4

/-- Match attempt for `re.sub(r'\n\s*\d+\s*\n', '\n', text)` at a position
just after a `'\n'`: maximal whitespace run, then at least one digit, then
`\s*\n`, which (greedily, after backtracking) consumes the following
whitespace run up to and including its last `'\n'`.  Returns the number of
characters the match consumes after the leading `'\n'`. -/
def pageNumMatchLen (rest : List Char) : Option ℕ :=
  let ws1 := rest.takeWhile pyIsSpace
  let r1 := rest.drop ws1.length
  let ds := r1.takeWhile pyIsDigit
  if ds.isEmpty then none
  else
    let r2 := r1.drop ds.length
    let ws2 := r2.takeWhile pyIsSpace
    let tailLen := ws2.length - (ws2.reverse.takeWhile (fun c => c != '\n')).length
    if tailLen = 0 then none else some (ws1.length + ds.length + tailLen)

/-- Scan for `re.sub(r'\n\s*\d+\s*\n', '\n', text)`: the counter skips the
remainder of a match that has been replaced by `'\n'`. -/
def pageNumSubAux : ℕ → List Char → List Char
  | k + 1, _ :: rest => pageNumSubAux k rest
  | _, [] => []
  | 0, c :: rest =>
    if c == '\n' then
      match pageNumMatchLen rest with
      | some m => '\n' :: pageNumSubAux m rest
      | none => '\n' :: pageNumSubAux 0 rest
    else c :: pageNumSubAux 0 rest

/-- Source `PDFCompressor.clean_text`: collapse whitespace, collapse repeated
characters, drop page-number lines, and strip. -/
def clean_text (text : String) : String :=
  String.mk (trimL (pageNumSubAux 0 (collapseRuns (collapseWS text.data))))

/-- Python `text.split('\n')` (empty pieces kept). -/
def splitOnNL : List Char → List (List Char)
  | [] => [[]]
  | c :: rest =>
    if c == '\n' then [] :: splitOnNL rest
    else
      match splitOnNL rest with
      | [] => [[c]]
      | f :: fs => (c :: f) :: fs

/-- The dedup loop of `PDFCompressor.remove_redundancy`: strip each line,
skip blank lines, and keep a line only when the first 100 characters of its
lowercasing have not been seen. -/
def removeRedundancyAux : List (List Char) → List (List Char) → List (List Char)
  | [], _ => []
  | line :: rest, seen =>
    let stripped := trimL line
    if stripped.isEmpty then removeRedundancyAux rest seen
    else
      let key := (stripped.map pyToLowerChar).take 100
      if seen.contains key then removeRedundancyAux rest seen
      else stripped :: removeRedundancyAux rest (key :: seen)

/-- Python `'\n'.join(...)`. -/
def joinNL : List (List Char) → List Char
  | [] => []
  | [l] => l
  | l :: ls => l ++ '\n' :: joinNL ls

/-- Source `PDFCompressor.remove_redundancy`. -/
def remove_redundancy (text : String) : String :=
  String.mk (joinNL (removeRedundancyAux (splitOnNL text.data) []))

/-- Python `str.replace(old, new)`: replace every non-overlapping occurrence
left to right.  The counter skips the remainder of a matched occurrence. -/
def pyReplaceAux (old new : List Char) : ℕ → List Char → List Char
  | k + 1, _ :: rest => pyReplaceAux old new k rest
  | _, [] => []
  | 0, c :: rest =>
    if !old.isEmpty && old.isPrefixOf (c :: rest) then
      new ++ pyReplaceAux old new (old.length - 1) rest
    else c :: pyReplaceAux old new 0 rest

/-- The replacement table of `PDFCompressor.compress_abbreviations`, in dict
insertion order (Python dicts iterate in insertion order). -/
def replacements : List (String × String) :=
  [(" and ", " & "), (" with ", " w/ "), (" without ", " w/o "),
   (" through ", " thru "), (" between ", " btwn "),
   (" approximately ", " ~"), (" percent ", "%"), (" number ", "#"),
   (" versus ", " vs ")]

/-- Source `PDFCompressor.compress_abbreviations`. -/
def compress_abbreviations (text : String) : String :=
  String.mk (replacements.foldl (fun t p => pyReplaceAux p.1.data p.2.data 0 t) text.data)

/-- Source `PDFCompressor.compress`, from the point text has been extracted: clean,
deduplicate, abbreviate, and truncate to `max_chars = max_tokens * 4`
characters when the estimate still exceeds `max_tokens`. -/
def compress (max_tokens : ℕ) (text : String) : String :=
  let cleaned := clean_text text
  let deduped := remove_redundancy cleaned
  let abbreviated := compress_abbreviations deduped
  if max_tokens < estimate_tokens abbreviated then
    String.mk (abbreviated.data.take (max_tokens * 4))
  else abbreviated

end PDFCompressor

/-! ### Lemmas about the stable sorts -/

namespace AdvancedPDFCompressor

theorem insertDescStable_perm (key : ℕ → ℚ) (i : ℕ) :
    ∀ l : List ℕ, List.Perm (insertDescStable key i l) (i :: l) := by
  intro l
  induction l with
  | nil => exact List.Perm.refl _
  | cons j rest ih =>
    rw [insertDescStable]
    split
    · exact List.Perm.refl _
    · exact (List.Perm.cons j ih).trans (List.Perm.swap i j rest)

theorem pySortDesc_perm (key : ℕ → ℚ) : ∀ l : List ℕ, List.Perm (pySortDesc key l) l := by
  intro l
  induction l with
  | nil => exact List.Perm.refl _
  | cons i rest ih =>
    rw [pySortDesc]
    exact (insertDescStable_perm key i _).trans (List.Perm.cons i ih)

theorem length_pySortDesc (key : ℕ → ℚ) (l : List ℕ) :
    (pySortDesc key l).length = l.length :=
  (pySortDesc_perm key l).length_eq

theorem mem_insertDescStable {key : ℕ → ℚ} {i x : ℕ} {l : List ℕ} :
    x ∈ insertDescStable key i l ↔ x = i ∨ x ∈ l := by
  rw [(insertDescStable_perm key i l).mem_iff, List.mem_cons]

theorem insertDescStable_pairwise (key : ℕ → ℚ) (i : ℕ) :
    ∀ l : List ℕ, List.Pairwise (fun a b => key b ≤ key a) l →
      List.Pairwise (fun a b => key b ≤ key a) (insertDescStable key i l) := by
  intro l
  induction l with
  | nil => intro _; simp [insertDescStable]
  | cons j rest ih =>
    intro h
    rw [List.pairwise_cons] at h
    rw [insertDescStable]
    split
    · rename_i hji
      refine List.Pairwise.cons ?_ (List.Pairwise.cons h.1 h.2)
      intro x hx
      rcases List.mem_cons.1 hx with rfl | hx
      · exact hji
      · exact (h.1 x hx).trans hji
    · rename_i hji
      refine List.Pairwise.cons ?_ (ih h.2)
      intro x hx
      rcases mem_insertDescStable.1 hx with rfl | hx
      · exact le_of_lt (lt_of_not_le hji)
      · exact h.1 x hx

theorem pySortDesc_pairwise (key : ℕ → ℚ) :
    ∀ l : List ℕ, List.Pairwise (fun a b => key b ≤ key a) (pySortDesc key l) := by
  intro l
  induction l with
  | nil => simp [pySortDesc]
  | cons i rest ih =>
    rw [pySortDesc]
    exact insertDescStable_pairwise key i _ ih

theorem filter_insertDescStable_self (key : ℕ → ℚ) (i : ℕ) :
    ∀ l : List ℕ,
      (insertDescStable key i l).filter (fun j => decide (key j = key i)) =
        i :: l.filter (fun j => decide (key j = key i)) := by
  intro l
  induction l with
  | nil => simp [insertDescStable]
  | cons j rest ih =>
    rw [insertDescStable]
    split
    · simp
    · rename_i hji
      have hne : ¬ key j = key i := fun e => hji (le_of_eq e)
      simp only [List.filter_cons, decide_eq_true_eq, if_neg hne, ih]

theorem filter_insertDescStable_ne (key : ℕ → ℚ) (i : ℕ) (q : ℚ) (h : key i ≠ q) :
    ∀ l : List ℕ,
      (insertDescStable key i l).filter (fun j => decide (key j = q)) =
        l.filter (fun j => decide (key j = q)) := by
  intro l
  induction l with
  | nil => simp [insertDescStable, h]
  | cons j rest ih =>
    rw [insertDescStable]
    split
    · simp [h]
    · simp only [List.filter_cons, ih]

theorem filter_pySortDesc (key : ℕ → ℚ) (q : ℚ) :
    ∀ l : List ℕ,
      (pySortDesc key l).filter (fun j => decide (key j = q)) =
        l.filter (fun j => decide (key j = q)) := by
  intro l
  induction l with
  | nil => rfl
  | cons i rest ih =>
    rw [pySortDesc]
    by_cases h : key i = q
    · subst h
      rw [filter_insertDescStable_self, ih]
      simp
    · rw [filter_insertDescStable_ne key i q h, ih]
      simp [h]

theorem insertAsc_perm (i : ℕ) : ∀ l : List ℕ, List.Perm (insertAsc i l) (i :: l) := by
  intro l
  induction l with
  | nil => exact List.Perm.refl _
  | cons j rest ih =>
    rw [insertAsc]
    split
    · exact List.Perm.refl _
    · exact (List.Perm.cons j ih).trans (List.Perm.swap i j rest)

theorem sortAsc_perm : ∀ l : List ℕ, List.Perm (sortAsc l) l := by
  intro l
  induction l with
  | nil => exact List.Perm.refl _
  | cons i rest ih =>
    rw [sortAsc]
    exact (insertAsc_perm i _).trans (List.Perm.cons i ih)

theorem mem_insertAsc {i x : ℕ} {l : List ℕ} :
    x ∈ insertAsc i l ↔ x = i ∨ x ∈ l := by
  rw [(insertAsc_perm i l).mem_iff, List.mem_cons]

theorem insertAsc_pairwise (i : ℕ) :
    ∀ l : List ℕ, List.Pairwise (· ≤ ·) l →
      List.Pairwise (· ≤ ·) (insertAsc i l) := by
  intro l
  induction l with
  | nil => intro _; simp [insertAsc]
  | cons j rest ih =>
    intro h
    rw [List.pairwise_cons] at h
    rw [insertAsc]
    split
    · rename_i hij
      refine List.Pairwise.cons ?_ (List.Pairwise.cons h.1 h.2)
      intro x hx
      rcases List.mem_cons.1 hx with rfl | hx
      · exact hij
      · exact hij.trans (h.1 x hx)
    · rename_i hij
      refine List.Pairwise.cons ?_ (ih h.2)
      intro x hx
      rcases mem_insertAsc.1 hx with rfl | hx
      · exact le_of_lt (lt_of_not_le hij)
      · exact h.1 x hx

theorem sortAsc_pairwise : ∀ l : List ℕ, List.Pairwise (· ≤ ·) (sortAsc l) := by
  intro l
  induction l with
  | nil => simp [sortAsc]
  | cons i rest ih =>
    rw [sortAsc]
    exact insertAsc_pairwise i _ ih

end AdvancedPDFCompressor

/-! ### Generic list lemmas used by the claims -/

theorem le_foldr_max {a : ℕ} : ∀ l : List ℕ, a ∈ l → a ≤ l.foldr max 0 := by
  intro l
  induction l with
  | nil => intro h; cases h
  | cons b rest ih =>
    intro h
    rcases List.mem_cons.1 h with rfl | h
    · exact le_max_left _ _
    · exact (ih h).trans (le_max_right _ _)

theorem foldr_max_mem : ∀ l : List ℕ, l ≠ [] → l.foldr max 0 ∈ l := by
  intro l
  induction l with
  | nil => intro h; exact absurd rfl h
  | cons b rest ih =>
    intro _
    cases rest with
    | nil => simp
    | cons c rest' =>
      rcases max_choice b ((c :: rest').foldr max 0) with h | h
      · rw [List.foldr_cons, h]; exact List.mem_cons_self _ _
      · rw [List.foldr_cons, h]
        exact List.mem_cons_of_mem _ (ih (by simp))

theorem pair_sublist_filter_range {p : ℕ → Bool} {a b : ℕ} (hab : a < b)
    (hpa : p a = true) (hpb : p b = true) :
    ∀ n : ℕ, b < n → List.Sublist [a, b] ((List.range n).filter p) := by
  intro n
  induction n with
  | zero => omega
  | succ m ih =>
    intro hbn
    rw [List.range_succ, List.filter_append]
    by_cases hbm : b < m
    · exact (ih hbm).trans (List.sublist_append_left _ _)
    · have hbm' : b = m := by omega
      subst hbm'
      have hfb : List.filter p [b] = [b] := by simp [hpb]
      rw [hfb]
      have ha : List.Sublist [a] ((List.range b).filter p) :=
        List.singleton_sublist.2 (List.mem_filter.2 ⟨List.mem_range.2 hab, hpa⟩)
      exact List.Sublist.append ha (List.Sublist.refl [b])

theorem sublist_map_getD {α : Type} (d : α) :
    ∀ (l : List α) (idxs : List ℕ), List.Pairwise (· < ·) idxs →
      (∀ i ∈ idxs, i < l.length) →
      List.Sublist (idxs.map (fun i => l.getD i d)) l := by
  intro l
  induction l with
  | nil =>
    intro idxs _ hb
    cases idxs with
    | nil => simp
    | cons i rest => exact absurd (hb i (List.mem_cons_self i rest)) (by simp)
  | cons x l' ih =>
    intro idxs hp hb
    cases idxs with
    | nil => simp
    | cons i rest =>
      rw [List.pairwise_cons] at hp
      have hshift : ∀ j ∈ rest, (x :: l').getD j d = l'.getD (j - 1) d := by
        intro j hj
        have h1 : 1 ≤ j := Nat.one_le_iff_ne_zero.2 (by
          intro e
          exact absurd (hp.1 j hj) (by omega))
        obtain ⟨j', rfl⟩ : ∃ j', j = j' + 1 := ⟨j - 1, by omega⟩
        simp [List.getD_cons_succ]
      have hmap : rest.map (fun j => (x :: l').getD j d) =
          (rest.map (fun j => j - 1)).map (fun j => l'.getD j d) := by
        rw [List.map_map]
        exact List.map_congr_left hshift
      have hrec : List.Sublist ((rest.map (fun j => j - 1)).map (fun j => l'.getD j d)) l' := by
        refine ih _ ?_ ?_
        · rw [List.pairwise_map]
          refine hp.2.imp_of_mem ?_
          intro u v hu hv huv
          have hu1 : 1 ≤ u := Nat.one_le_iff_ne_zero.2 (by
            intro e
            exact absurd (hp.1 u hu) (by omega))
          omega
        · intro k hk
          rcases List.mem_map.1 hk with ⟨j, hj, rfl⟩
          have := hb j (List.mem_cons_of_mem i hj)
          simp only [List.length_cons] at this
          have h1 : 1 ≤ j := Nat.one_le_iff_ne_zero.2 (by
            intro e
            exact absurd (hp.1 j hj) (by omega))
          omega
      by_cases hi : i = 0
      · subst hi
        have hhead : (x :: l').getD 0 d = x := rfl
        simp only [List.map_cons, hhead, hmap]
        exact List.Sublist.cons₂ x hrec
      · have hi1 : 1 ≤ i := Nat.one_le_iff_ne_zero.2 hi
        obtain ⟨i', rfl⟩ : ∃ i', i = i' + 1 := ⟨i - 1, by omega⟩
        have hheadi : (x :: l').getD (i' + 1) d = l'.getD i' d := by
          simp [List.getD_cons_succ]
        have hbi : i' < l'.length := by
          have := hb (i' + 1) (List.mem_cons_self _ _)
          simp only [List.length_cons] at this
          omega
        -- rewrite the whole mapped list through the shift and recurse on l'
        have hmap2 : ((i' + 1) :: rest).map (fun j => (x :: l').getD j d) =
            (((i' + 1) :: rest).map (fun j => j - 1)).map (fun j => l'.getD j d) := by
          rw [List.map_map]
          refine List.map_congr_left ?_
          intro j hj
          rcases List.mem_cons.1 hj with rfl | hj
          · simp [List.getD_cons_succ]
          · exact hshift j hj
        rw [hmap2]
        refine List.Sublist.cons x ?_
        refine ih _ ?_ ?_
        · rw [List.pairwise_map]
          refine (List.Pairwise.cons ?_ hp.2).imp_of_mem ?_
          · intro j hj; exact hp.1 j hj
          · intro u v hu hv huv
            have hu1 : 1 ≤ u := by
              rcases List.mem_cons.1 hu with rfl | hu'
              · omega
              · have := hp.1 u hu'; omega
            omega
        · intro k hk
          rcases List.mem_map.1 hk with ⟨j, hj, rfl⟩
          have hj1 : 1 ≤ j := by
            rcases List.mem_cons.1 hj with rfl | hj'
            · omega
            · have := hp.1 j hj'; omega
          have hjlen : j < l'.length + 1 := by
            have := hb j (by
              rcases List.mem_cons.1 hj with rfl | hj'
              · exact List.mem_cons_self _ _
              · exact List.mem_cons_of_mem _ hj')
            simpa using this
          omega

/-! ### Lemmas about the frequency table and the selector -/

namespace AdvancedPDFCompressor

theorem one_le_max_freq (ws : List String) : 1 ≤ max_freq ws := by
  unfold max_freq
  split
  · exact le_refl 1
  · rename_i h
    have h2 : ws.isEmpty = false := by simpa using h
    rw [List.isEmpty_eq_false_iff_exists_mem] at h2
    obtain ⟨w, hw⟩ := h2
    have h1 : 1 ≤ ws.count w := List.count_pos_iff.2 hw
    exact h1.trans (le_foldr_max _ (List.mem_map_of_mem _ hw))

theorem count_le_max_freq (ws : List String) (w : String) :
    ws.count w ≤ max_freq ws := by
  by_cases hw : w ∈ ws
  · unfold max_freq
    rw [if_neg (by simp [List.isEmpty_iff]; intro e; subst e; cases hw)]
    exact le_foldr_max _ (List.mem_map_of_mem _ hw)
  · rw [List.count_eq_zero.2 hw]
    exact Nat.zero_le _

theorem exists_count_eq_max_freq (ws : List String) (h : ws ≠ []) :
    ∃ w ∈ ws, ws.count w = max_freq ws := by
  unfold max_freq
  rw [if_neg (by simpa [List.isEmpty_iff] using h)]
  have hne : ws.map (fun w => ws.count w) ≠ [] := by
    simpa using h
  have := foldr_max_mem _ hne
  rcases List.mem_map.1 this with ⟨w, hw, he⟩
  exact ⟨w, hw, he⟩

theorem length_rankedIndices (sentences : List String) :
    (rankedIndices sentences).length = sentences.length := by
  unfold rankedIndices
  rw [length_pySortDesc, List.length_range]

theorem mem_rankedIndices {sentences : List String} {i : ℕ} :
    i ∈ rankedIndices sentences ↔ i < sentences.length := by
  unfold rankedIndices
  rw [(pySortDesc_perm _ _).mem_iff, List.mem_range]

theorem nodup_rankedIndices (sentences : List String) :
    (rankedIndices sentences).Nodup := by
  unfold rankedIndices
  exact ((pySortDesc_perm _ _).nodup_iff).2 (List.nodup_range _)

theorem length_selectedIndices (sentences : List String) (r : ℚ) :
    (selectedIndices sentences r).length =
      min (num_sentences_to_keep sentences.length r) sentences.length := by
  unfold selectedIndices
  rw [(sortAsc_perm _).length_eq, List.length_take, length_rankedIndices]

theorem nodup_selectedIndices (sentences : List String) (r : ℚ) :
    (selectedIndices sentences r).Nodup := by
  unfold selectedIndices
  refine ((sortAsc_perm _).nodup_iff).2 ?_
  exact (List.take_sublist _ _).nodup (nodup_rankedIndices sentences)

theorem selectedIndices_pairwise_lt (sentences : List String) (r : ℚ) :
    List.Pairwise (· < ·) (selectedIndices sentences r) := by
  have h1 : List.Pairwise (· ≤ ·) (selectedIndices sentences r) := by
    unfold selectedIndices
    exact sortAsc_pairwise _
  have h2 := nodup_selectedIndices sentences r
  exact (h1.and h2).imp (fun h => lt_of_le_of_ne h.1 h.2)

theorem mem_selectedIndices_lt {sentences : List String} {r : ℚ} {i : ℕ}
    (h : i ∈ selectedIndices sentences r) : i < sentences.length := by
  unfold selectedIndices at h
  rw [(sortAsc_perm _).mem_iff] at h
  exact mem_rankedIndices.1 (List.take_subset _ _ h)

theorem pyInt_of_nonneg {q : ℚ} (h : 0 ≤ q) : pyInt q = ⌊q⌋ :=
  if_neg (not_lt.2 h)

theorem num_sentences_to_keep_le {n : ℕ} {r : ℚ} (h1 : r ≤ 1) (hn : 1 ≤ n) :
    num_sentences_to_keep n r ≤ n := by
  unfold num_sentences_to_keep pyInt
  split
  · rename_i h
    have hc : ⌈(n : ℚ) * r⌉ ≤ 0 := Int.ceil_le.2 (by push_cast; exact le_of_lt h)
    rw [Int.toNat_eq_zero.2 hc]
    omega
  · have hle : (n : ℚ) * r ≤ (n : ℚ) :=
      mul_le_of_le_one_right (by positivity) h1
    have hf : ⌊(n : ℚ) * r⌋ ≤ (n : ℤ) := by
      have := Int.floor_le_floor hle
      rwa [Int.floor_natCast] at this
    have ht : (⌊(n : ℚ) * r⌋).toNat ≤ n := by omega
    omega

theorem num_sentences_to_keep_mono {n : ℕ} {r1 r2 : ℚ} (h0 : 0 < r1) (h12 : r1 ≤ r2) :
    num_sentences_to_keep n r1 ≤ num_sentences_to_keep n r2 := by
  unfold num_sentences_to_keep
  have hnn1 : (0 : ℚ) ≤ (n : ℚ) * r1 := by positivity
  have hnn2 : (0 : ℚ) ≤ (n : ℚ) * r2 := hnn1.trans (by
    exact mul_le_mul_of_nonneg_left h12 (by positivity))
  rw [pyInt_of_nonneg hnn1, pyInt_of_nonneg hnn2]
  have hf : ⌊(n : ℚ) * r1⌋ ≤ ⌊(n : ℚ) * r2⌋ :=
    Int.floor_le_floor (mul_le_mul_of_nonneg_left h12 (by positivity))
  have := Int.toNat_le_toNat hf
  omega

end AdvancedPDFCompressor

namespace AdvancedPDFCompressor

theorem splitSentencesAux_no_term :
    ∀ (l acc : List Char), (∀ c ∈ l, isSentTerm c = false) →
      (∀ c ∈ acc, isSentTerm c = false) →
      splitSentencesAux false acc l = [acc.reverse ++ l] := by
  intro l
  induction l with
  | nil =>
    intro acc _ _
    simp [splitSentencesAux]
  | cons c rest ih =>
    intro acc hl hacc
    have hhead : headIsTerm acc = false := by
      cases acc with
      | nil => rfl
      | cons p acc' => exact hacc p (List.mem_cons_self _ _)
    rw [splitSentencesAux]
    rw [if_neg (by simp), if_neg (by simp [hhead])]
    rw [ih (c :: acc) (fun d hd => hl d (List.mem_cons_of_mem c hd))
      (fun d hd => by
        rcases List.mem_cons.1 hd with rfl | hd
        · exact hl d (List.mem_cons_self _ _)
        · exact hacc d hd)]
    simp

theorem sentence_tokenize_no_term (text : String)
    (h : ∀ c ∈ text.data, isSentTerm c = false)
    (hne : (pyStrip text).data ≠ []) :
    sentence_tokenize text = [pyStrip text] := by
  unfold sentence_tokenize
  rw [splitSentencesAux_no_term text.data [] h (by simp)]
  simp only [List.reverse_nil, List.nil_append, List.map_cons, List.map_nil]
  have hdata : (String.mk (trimL text.data)).data = trimL text.data := rfl
  have hs : pyStrip text = String.mk (trimL text.data) := rfl
  rw [List.filter_cons]
  rw [if_pos (by
    simp only [hdata, Bool.not_eq_false']
    have : trimL text.data ≠ [] := by
      intro e
      exact hne (by simp [pyStrip, e])
    simpa [List.isEmpty_iff] using this)]
  rfl

end AdvancedPDFCompressor

/-! ### The claims -/

/-- C1 (code behaviour at the failing input): for the empty-string input the
advanced pipeline computes `original_tokens = 0` and the run fails — the
final report `(final_tokens/original_tokens)*100` raises `ZeroDivisionError`
(modelled by `none`) instead of returning the empty string. -/
theorem claim_C1_empty_input_run :
    AdvancedPDFCompressor.estimate_tokens "" = 0 ∧
    AdvancedPDFCompressor.compress 100000 (1/2) "" = none := by
  with_unfolding_all decide

/-- C2, counterexample: `"aaaaaaaa"` estimates to 2 tokens, below the
100000-token ceiling, so the claim demands `final_tokens = original_tokens`;
the code normalizes the run to `"aa"` and reports `final_tokens = 0 ≠ 2`. -/
theorem claim_C2_counterexample :
    AdvancedPDFCompressor.estimate_tokens "aaaaaaaa" ≤ 100000 ∧
    AdvancedPDFCompressor.compress 100000 (1/2) "aaaaaaaa" = some ("aa", 2, 0) ∧
    (0 : ℕ) ≠ 2 := by
  with_unfolding_all decide

/-- C2 (amended): for input whose token estimate lies between 1 and
`max_tokens`, the advanced `compress` returns the normalized text unchanged
(no summarization runs); the reported final estimate is the estimate of the
normalized text, which can be smaller than `original_tokens` when
normalization shrinks the text. -/
theorem claim_C2_noop_below_threshold (max_tokens : ℕ) (compression_ratio : ℚ)
    (text : String) (h1 : 1 ≤ AdvancedPDFCompressor.estimate_tokens text)
    (h2 : AdvancedPDFCompressor.estimate_tokens text ≤ max_tokens) :
    AdvancedPDFCompressor.compress max_tokens compression_ratio text =
      some (AdvancedPDFCompressor.clean text,
        AdvancedPDFCompressor.estimate_tokens text,
        AdvancedPDFCompressor.estimate_tokens (AdvancedPDFCompressor.clean text)) := by
  simp only [AdvancedPDFCompressor.compress]
  rw [if_pos h2, if_neg (by omega)]

theorem claim_C2_noop_below_threshold_witness :
    1 ≤ AdvancedPDFCompressor.estimate_tokens "abcd" ∧
    AdvancedPDFCompressor.estimate_tokens "abcd" ≤ 100000 ∧
    AdvancedPDFCompressor.compress 100000 (1/2) "abcd" =
      some (AdvancedPDFCompressor.clean "abcd",
        AdvancedPDFCompressor.estimate_tokens "abcd",
        AdvancedPDFCompressor.estimate_tokens (AdvancedPDFCompressor.clean "abcd")) :=
  ⟨by decide, by decide,
    claim_C2_noop_below_threshold 100000 (1/2) "abcd" (by decide) (by decide)⟩

/-- C4: the score of the sentence at index `i` is the sum of the table
values of its word tokens (absent tokens contributing 0, folded into the
table), times `6/5` exactly when `i < 3` or `i ≥ n - 3`, times `11/10`
exactly when the sentence contains a decimal digit; it is a function of the
sentence text, the table, the index and the sentence count alone. -/
theorem claim_C4_score_formula (sentences : List String) (i : ℕ) :
    AdvancedPDFCompressor.calculate_sentence_scores sentences i =
      ((AdvancedPDFCompressor.findWords
          (pyLower (sentences.getD i ""))).map
        (AdvancedPDFCompressor.word_freq sentences)).sum *
      (if i < 3 ∨ sentences.length - 3 ≤ i then (6 : ℚ)/5 else 1) *
      (if AdvancedPDFCompressor.hasDigit (sentences.getD i "") then (11 : ℚ)/10 else 1) := by
  simp only [AdvancedPDFCompressor.calculate_sentence_scores]
  split <;> split <;> ring

/-- C10: in the simple compression path, once cleaning, deduplication and
abbreviation have produced `t`, the result is `t` truncated to its first
`max_tokens * 4` characters exactly when `t`'s token estimate exceeds
`max_tokens`, and the returned text's token estimate never exceeds
`max_tokens`. -/
theorem claim_C10_truncation_ceiling (max_tokens : ℕ) (text : String) :
    PDFCompressor.compress max_tokens text =
      (if max_tokens < PDFCompressor.estimate_tokens
          (PDFCompressor.compress_abbreviations
            (PDFCompressor.remove_redundancy (PDFCompressor.clean_text text))) then
        String.mk ((PDFCompressor.compress_abbreviations
          (PDFCompressor.remove_redundancy (PDFCompressor.clean_text text))).data.take
            (max_tokens * 4))
      else
        PDFCompressor.compress_abbreviations
          (PDFCompressor.remove_redundancy (PDFCompressor.clean_text text))) ∧
    PDFCompressor.estimate_tokens (PDFCompressor.compress max_tokens text) ≤ max_tokens := by
  constructor
  · rfl
  · simp only [PDFCompressor.compress]
    split
    · show (String.mk _).length / 4 ≤ max_tokens
      have hlen : (String.mk ((PDFCompressor.compress_abbreviations
          (PDFCompressor.remove_redundancy
            (PDFCompressor.clean_text text))).data.take (max_tokens * 4))).length ≤
          max_tokens * 4 := by
        show (List.take _ _).length ≤ _
        rw [List.length_take]
        exact min_le_left _ _
      calc (String.mk _).length / 4 ≤ (max_tokens * 4) / 4 :=
            Nat.div_le_div_right hlen
        _ = max_tokens := by omega
    · rename_i h
      exact le_of_not_lt h

/-- C8, counterexample: `" "` contains no terminal punctuation, yet the
segmenter returns the empty sequence rather than the single sentence equal
to the whole trimmed input (`[""]`): blank fragments are dropped. -/
theorem claim_C8_counterexample :
    (" ".data.all (fun c => !AdvancedPDFCompressor.isSentTerm c)) = true ∧
    " " ≠ "" ∧
    AdvancedPDFCompressor.sentence_tokenize " " = [] ∧
    AdvancedPDFCompressor.sentence_tokenize " " ≠ [pyStrip " "] := by
  decide

/-- C8 (amended): the empty string yields the empty sequence; text with no
terminal punctuation and a nonblank character yields exactly one sentence,
the whole stripped input; and text is split immediately after `.`/`!`/`?`
followed by whitespace, with fragments trimmed, blanks dropped and order
preserved (witnessed on a three-sentence input). -/
theorem claim_C8_segmenter :
    AdvancedPDFCompressor.sentence_tokenize "" = [] ∧
    (∀ text : String, (∀ c ∈ text.data, AdvancedPDFCompressor.isSentTerm c = false) →
      (pyStrip text).data ≠ [] →
      AdvancedPDFCompressor.sentence_tokenize text = [pyStrip text]) ∧
    AdvancedPDFCompressor.sentence_tokenize "Ab. Cd! Ef" = ["Ab.", "Cd!", "Ef"] := by
  refine ⟨by decide, ?_, by decide⟩
  intro text h hne
  exact AdvancedPDFCompressor.sentence_tokenize_no_term text h hne

theorem claim_C8_segmenter_witness :
    (∀ c ∈ "abc".data, AdvancedPDFCompressor.isSentTerm c = false) ∧
    (pyStrip "abc").data ≠ [] ∧
    AdvancedPDFCompressor.sentence_tokenize "abc" = [pyStrip "abc"] :=
  ⟨by decide, by decide, claim_C8_segmenter.2.1 "abc" (by decide) (by decide)⟩

/-- C3: the ranked index list is sorted by score descending, and two
sentences with equal scores appear in it with the lower original index
first (`[i, j]` is a sublist of the ranking), so the lower index is taken
first when one slot remains. -/
theorem claim_C3_tie_break (sentences : List String) (i j : ℕ) (hij : i < j)
    (hj : j < sentences.length)
    (hs : AdvancedPDFCompressor.calculate_sentence_scores sentences i =
      AdvancedPDFCompressor.calculate_sentence_scores sentences j) :
    List.Pairwise
      (fun a b => AdvancedPDFCompressor.calculate_sentence_scores sentences b ≤
        AdvancedPDFCompressor.calculate_sentence_scores sentences a)
      (AdvancedPDFCompressor.rankedIndices sentences) ∧
    List.Sublist [i, j] (AdvancedPDFCompressor.rankedIndices sentences) := by
  constructor
  · exact AdvancedPDFCompressor.pySortDesc_pairwise _ _
  · have hfilter := AdvancedPDFCompressor.filter_pySortDesc
      (AdvancedPDFCompressor.calculate_sentence_scores sentences)
      (AdvancedPDFCompressor.calculate_sentence_scores sentences i)
      (List.range sentences.length)
    have hpair : List.Sublist [i, j]
        ((List.range sentences.length).filter
          (fun k => decide (AdvancedPDFCompressor.calculate_sentence_scores sentences k =
            AdvancedPDFCompressor.calculate_sentence_scores sentences i))) := by
      refine pair_sublist_filter_range hij ?_ ?_ sentences.length hj
      · simp
      · simp [hs]
    rw [← hfilter] at hpair
    exact hpair.trans (List.filter_sublist _)

theorem claim_C3_tie_break_witness :
    (0 : ℕ) < 1 ∧ 1 < (["a.", "b."] : List String).length ∧
    AdvancedPDFCompressor.calculate_sentence_scores ["a.", "b."] 0 =
      AdvancedPDFCompressor.calculate_sentence_scores ["a.", "b."] 1 ∧
    List.Sublist [0, 1] (AdvancedPDFCompressor.rankedIndices ["a.", "b."]) := by
  have hs : AdvancedPDFCompressor.calculate_sentence_scores ["a.", "b."] 0 =
      AdvancedPDFCompressor.calculate_sentence_scores ["a.", "b."] 1 := by
    with_unfolding_all decide
  exact ⟨by decide, by decide, hs,
    (claim_C3_tie_break ["a.", "b."] 0 1 (by decide) (by decide) hs).2⟩

/-- C5: for a nonempty sentence list and ratio `r ∈ (0, 1]`, the selector
keeps exactly `max(1, ⌊n·r⌋)` sentences, hence always at least one. -/
theorem claim_C5_retention_floor (sentences : List String) (r : ℚ)
    (hne : sentences ≠ []) (h0 : 0 < r) (h1 : r ≤ 1) :
    ((AdvancedPDFCompressor.selectedIndices sentences r).length : ℤ) =
      max 1 ⌊(sentences.length : ℚ) * r⌋ ∧
    1 ≤ (AdvancedPDFCompressor.selectedIndices sentences r).length := by
  have hn : 1 ≤ sentences.length := by
    cases sentences with
    | nil => exact absurd rfl hne
    | cons a t => simp
  have hnn : (0 : ℚ) ≤ (sentences.length : ℚ) * r := by positivity
  have hkeep : AdvancedPDFCompressor.num_sentences_to_keep sentences.length r =
      max 1 (⌊(sentences.length : ℚ) * r⌋).toNat := by
    unfold AdvancedPDFCompressor.num_sentences_to_keep
    rw [AdvancedPDFCompressor.pyInt_of_nonneg hnn]
  have hle : AdvancedPDFCompressor.num_sentences_to_keep sentences.length r ≤
      sentences.length := AdvancedPDFCompressor.num_sentences_to_keep_le h1 hn
  have hlen := AdvancedPDFCompressor.length_selectedIndices sentences r
  rw [min_eq_left hle] at hlen
  constructor
  · rw [hlen, hkeep]
    omega
  · rw [hlen, hkeep]
    omega

theorem claim_C5_retention_floor_witness :
    (["a."] : List String) ≠ [] ∧ (0 : ℚ) < 1/2 ∧ (1/2 : ℚ) ≤ 1 ∧
    (((AdvancedPDFCompressor.selectedIndices ["a."] (1/2)).length : ℤ) =
      max 1 ⌊((["a."] : List String).length : ℚ) * (1/2)⌋ ∧
      1 ≤ (AdvancedPDFCompressor.selectedIndices ["a."] (1/2)).length) :=
  ⟨by decide, by norm_num, by norm_num,
    claim_C5_retention_floor ["a."] (1/2) (by decide) (by norm_num) (by norm_num)⟩

/-- C9: for a fixed sentence list, the number of retained sentences is
monotone in the retention ratio on `(0, 1]`. -/
theorem claim_C9_monotonicity (sentences : List String) (r1 r2 : ℚ)
    (h0 : 0 < r1) (h12 : r1 ≤ r2) (_h1 : r2 ≤ 1) :
    (AdvancedPDFCompressor.selectedIndices sentences r1).length ≤
      (AdvancedPDFCompressor.selectedIndices sentences r2).length := by
  rw [AdvancedPDFCompressor.length_selectedIndices,
    AdvancedPDFCompressor.length_selectedIndices]
  exact min_le_min (AdvancedPDFCompressor.num_sentences_to_keep_mono h0 h12) (le_refl _)

theorem claim_C9_monotonicity_witness :
    (0 : ℚ) < 1/2 ∧ (1/2 : ℚ) ≤ 1 ∧ (1 : ℚ) ≤ 1 ∧
    (AdvancedPDFCompressor.selectedIndices ["a."] (1/2)).length ≤
      (AdvancedPDFCompressor.selectedIndices ["a."] 1).length :=
  ⟨by norm_num, by norm_num, le_refl 1,
    claim_C9_monotonicity ["a."] (1/2) 1 (by norm_num) (by norm_num) (le_refl 1)⟩

/-- C6: the frequency table maps a surviving token to its document-wide
count divided by the maximum count, so stored frequencies lie in `(0, 1]`
and a most frequent surviving token gets exactly `1`; with no surviving
tokens the divisor is `1` (never `0`) and every lookup is `0`. -/
theorem claim_C6_frequency_table (sentences : List String) :
    1 ≤ AdvancedPDFCompressor.max_freq (AdvancedPDFCompressor.survivingWords sentences) ∧
    (∀ w ∈ AdvancedPDFCompressor.survivingWords sentences,
      AdvancedPDFCompressor.word_freq sentences w =
        ((AdvancedPDFCompressor.survivingWords sentences).count w : ℚ) /
          (AdvancedPDFCompressor.max_freq (AdvancedPDFCompressor.survivingWords sentences) : ℚ) ∧
      0 < AdvancedPDFCompressor.word_freq sentences w ∧
      AdvancedPDFCompressor.word_freq sentences w ≤ 1) ∧
    (AdvancedPDFCompressor.survivingWords sentences ≠ [] →
      ∃ w ∈ AdvancedPDFCompressor.survivingWords sentences,
        AdvancedPDFCompressor.word_freq sentences w = 1) ∧
    (AdvancedPDFCompressor.survivingWords sentences = [] →
      AdvancedPDFCompressor.max_freq (AdvancedPDFCompressor.survivingWords sentences) = 1 ∧
      ∀ w : String, AdvancedPDFCompressor.word_freq sentences w = 0) := by
  have hmaxpos : (0 : ℚ) <
      (AdvancedPDFCompressor.max_freq (AdvancedPDFCompressor.survivingWords sentences) : ℚ) := by
    have := AdvancedPDFCompressor.one_le_max_freq (AdvancedPDFCompressor.survivingWords sentences)
    exact_mod_cast Nat.lt_of_lt_of_le Nat.zero_lt_one this
  refine ⟨AdvancedPDFCompressor.one_le_max_freq _, ?_, ?_, ?_⟩
  · intro w hw
    refine ⟨rfl, ?_, ?_⟩
    · refine div_pos ?_ hmaxpos
      have := List.count_pos_iff.2 hw
      exact_mod_cast this
    · show ((AdvancedPDFCompressor.survivingWords sentences).count w : ℚ) / _ ≤ 1
      rw [div_le_one hmaxpos]
      exact_mod_cast AdvancedPDFCompressor.count_le_max_freq _ w
  · intro hne
    obtain ⟨w, hw, he⟩ := AdvancedPDFCompressor.exists_count_eq_max_freq _ hne
    refine ⟨w, hw, ?_⟩
    show ((AdvancedPDFCompressor.survivingWords sentences).count w : ℚ) / _ = 1
    rw [he]
    exact div_self (ne_of_gt hmaxpos)
  · intro hempty
    constructor
    · rw [hempty]; rfl
    · intro w
      show ((AdvancedPDFCompressor.survivingWords sentences).count w : ℚ) / _ = 0
      rw [hempty]
      simp

theorem claim_C6_frequency_table_witness :
    "cat" ∈ AdvancedPDFCompressor.survivingWords ["dog dog cat."] ∧
    0 < AdvancedPDFCompressor.word_freq ["dog dog cat."] "cat" ∧
    AdvancedPDFCompressor.word_freq ["dog dog cat."] "cat" ≤ 1 := by
  have hmem : "cat" ∈ AdvancedPDFCompressor.survivingWords ["dog dog cat."] := by decide
  obtain ⟨_, h2, h3⟩ := (claim_C6_frequency_table ["dog dog cat."]).2.1 "cat" hmem
  exact ⟨hmem, h2, h3⟩

/-- C7: either the input segments to no sentences (and the text is returned
unchanged), or the output is the space-join of the sentences at a strictly
increasing list of in-range indices, so the output's sentences are a
subsequence of the original sentence sequence in document order. -/
theorem claim_C7_order_preservation (text : String) (targetRatio : ℚ) :
    (AdvancedPDFCompressor.sentence_tokenize text = [] ∧
      AdvancedPDFCompressor.extractive_summarize text targetRatio = text) ∨
    (∃ idxs : List ℕ,
      List.Pairwise (· < ·) idxs ∧
      (∀ i ∈ idxs, i < (AdvancedPDFCompressor.sentence_tokenize text).length) ∧
      AdvancedPDFCompressor.extractive_summarize text targetRatio =
        joinSpace (idxs.map
          (fun i => (AdvancedPDFCompressor.sentence_tokenize text).getD i "")) ∧
      List.Sublist
        (idxs.map (fun i => (AdvancedPDFCompressor.sentence_tokenize text).getD i ""))
        (AdvancedPDFCompressor.sentence_tokenize text)) := by
  by_cases h : AdvancedPDFCompressor.sentence_tokenize text = []
  · left
    refine ⟨h, ?_⟩
    unfold AdvancedPDFCompressor.extractive_summarize
    rw [h]
    rfl
  · right
    refine ⟨AdvancedPDFCompressor.selectedIndices
      (AdvancedPDFCompressor.sentence_tokenize text) targetRatio, ?_, ?_, ?_, ?_⟩
    · exact AdvancedPDFCompressor.selectedIndices_pairwise_lt _ _
    · intro i hi
      exact AdvancedPDFCompressor.mem_selectedIndices_lt hi
    · unfold AdvancedPDFCompressor.extractive_summarize
      rw [if_neg (by simpa [List.isEmpty_iff] using h)]
    · exact sublist_map_getD ""
        (AdvancedPDFCompressor.sentence_tokenize text)
        (AdvancedPDFCompressor.selectedIndices
          (AdvancedPDFCompressor.sentence_tokenize text) targetRatio)
        (AdvancedPDFCompressor.selectedIndices_pairwise_lt _ _)
        (fun i hi => AdvancedPDFCompressor.mem_selectedIndices_lt hi)
